import Mathlib

/-!
# Verification of the notes application core

A shallow embedding of the single-page notes application (one React
component).  The component's state hooks become the fields of `AppState`;
its event handlers (`saveNote`, `deleteNote`, `addTag`, `removeTag`,
`createNote`, `editNote`) become pure state-transition functions; the
derived view `filteredNotes` becomes a pure function of the state and the
(externally supplied) timestamp interpretation; the `localStorage`
load/persist effects become functions over an optional stored blob.

JavaScript string primitives used by the component (`trim`,
`toLowerCase`, `includes`) are modelled on Lean strings; `trim` removes
the ASCII whitespace characters recognised by `Char.isWhitespace`
(space, tab, CR, LF) from both ends, and `toLowerCase` lowercases the
basic-latin letters, which is the behaviour of the JavaScript functions
on the ASCII range.
-/

namespace NotesApp

/-- Model of JavaScript `String.prototype.toLowerCase` (basic-latin range). -/
def jsToLower (s : String) : String := ⟨s.data.map Char.toLower⟩

/-- Model of JavaScript `String.prototype.trim`: drop whitespace from both ends. -/
def jsTrim (s : String) : String :=
  ⟨List.rdropWhile Char.isWhitespace (s.data.dropWhile Char.isWhitespace)⟩

/-- Model of JavaScript `String.prototype.includes`: substring containment. -/
def jsIncludes (s pat : String) : Bool := decide (pat.data <:+: s.data)

/-- The `Note` record of the source (`interface Note`): all fields are strings
except `tags`, a list of strings; the timestamps are ISO-8601 strings. -/
structure Note where
  id : String
  title : String
  content : String
  tags : List String
  createdAt : String
  updatedAt : String
deriving DecidableEq, Repr

/-- The component's state: one field per `useState` hook of `Home`. -/
structure AppState where
  notes : List Note
  searchQuery : String
  selectedTag : Option String
  isEditing : Bool
  currentNote : Option Note
  title : String
  content : String
  tagInput : String
  tags : List String
deriving DecidableEq, Repr

/-- Search predicate from `filteredNotes` (source lines 39-44): empty query
passes everything, otherwise case-insensitive substring match against the
title, the content, or any tag. -/
def matchesSearch (q : String) (n : Note) : Bool :=
  q == "" ||
  jsIncludes (jsToLower n.title) (jsToLower q) ||
  jsIncludes (jsToLower n.content) (jsToLower q) ||
  n.tags.any (fun tag => jsIncludes (jsToLower tag) (jsToLower q))

/-- Tag predicate from `filteredNotes` (source line 46): no selected tag
passes everything, otherwise exact membership in the note's tag list. -/
def matchesTag (sel : Option String) (n : Note) : Bool :=
  match sel with
  | none => true
  | some t => n.tags.contains t

/-- The visible list (source lines 39-48): filter by the conjunction of the
two predicates, then sort by `updatedAt` descending.  JavaScript's
`Array.prototype.sort` is stable and is modelled by `List.mergeSort`; the
comparator `(a, b) => new Date(b.updatedAt).getTime() - new Date(a.updatedAt).getTime()`
keeps `a` before `b` whenever `time b ≤ time a`, where `time` is the
external `Date` parse (passed as a parameter, integer-valued millis). -/
def filteredNotes (time : String → Int) (notes : List Note)
    (q : String) (sel : Option String) : List Note :=
  (notes.filter (fun n => matchesSearch q n && matchesTag sel n)).mergeSort
    (fun a b => decide (time b.updatedAt ≤ time a.updatedAt))

/-- `createNote` handler: open the editor with an empty draft. -/
def createNote (s : AppState) : AppState :=
  { s with currentNote := none, title := "", content := "", tags := [],
           tagInput := "", isEditing := true }

/-- `editNote` handler: open the editor with a draft copied from `n`. -/
def editNote (n : Note) (s : AppState) : AppState :=
  { s with currentNote := some n, title := n.title, content := n.content,
           tags := n.tags, tagInput := "", isEditing := true }

/-- `saveNote` handler (source lines 68-93).  `now` models
`new Date().toISOString()` and `newId` models `Date.now().toString()`,
both externally generated.  Note the early `return` when title and
content are both blank: it fires before `setIsEditing(false)`, so the
whole state is left untouched in that case. -/
def saveNote (now newId : String) (s : AppState) : AppState :=
  if jsTrim s.title == "" && jsTrim s.content == "" then s
  else
    let s' : AppState :=
      match s.currentNote with
      | some cn =>
        { s with notes := s.notes.map fun note =>
            if note.id = cn.id then
              { note with title := s.title, content := s.content,
                          tags := s.tags, updatedAt := now }
            else note }
      | none =>
        { s with notes :=
            { id := newId, title := s.title, content := s.content,
              tags := s.tags, createdAt := now, updatedAt := now } :: s.notes }
    { s' with isEditing := false, currentNote := none }

/-- `deleteNote` handler (source lines 95-99); `confirmOk` is the boolean
result of the blocking `confirm` dialog. -/
def deleteNote (confirmOk : Bool) (noteId : String) (s : AppState) : AppState :=
  if confirmOk then
    { s with notes := s.notes.filter fun note => note.id != noteId }
  else s

/-- `addTag` handler (source lines 101-107): normalize the pending input by
trim and lowercase; append it and clear the buffer when it is non-empty
and not already present. -/
def addTag (s : AppState) : AppState :=
  let tag := jsToLower (jsTrim s.tagInput)
  if tag != "" && !s.tags.contains tag then
    { s with tags := s.tags ++ [tag], tagInput := "" }
  else s

/-- `removeTag` handler (source lines 109-111). -/
def removeTag (tag : String) (s : AppState) : AppState :=
  { s with tags := s.tags.filter fun t => t != tag }

/-!
## Persistence

The component persists with `localStorage.setItem('notes', JSON.stringify(notes))`
and loads with `const saved = localStorage.getItem('notes'); if (saved) setNotes(JSON.parse(saved))`.
`JSON.stringify` / `JSON.parse` are modelled by a verified printer and a
parser for the full JSON grammar (strings, arrays, objects, numbers, the
literals `true`/`false`/`null`, and insignificant whitespace), so that the
parser's failure (`none`) coincides with `JSON.parse` throwing a
`SyntaxError`.  Numbers and the three literals are kept as their source
lexeme (`Json.lit`): the application's own persisted data never contains
them, and the load path classifies any such value as corrupt, so only
their accept/reject behaviour matters.
-/

mutual

inductive Json where
  | str (s : String)
  | arr (elems : JsonArr)
  | obj (members : JsonObj)
  | lit (raw : List Char)

inductive JsonArr where
  | nil
  | cons (hd : Json) (tl : JsonArr)

inductive JsonObj where
  | nil
  | cons (key : String) (val : Json) (tl : JsonObj)

end

/-- Lowercase hex digit for `n < 16`, as emitted by `JSON.stringify`. -/
def hexDigitChar (n : Nat) : Char :=
  if n < 10 then Char.ofNat (48 + n) else Char.ofNat (87 + n)

/-- The escaping `JSON.stringify` applies to one character of a string:
quote and backslash get a backslash escape, the control characters with
short forms get those, the remaining control characters get `\u00XX`,
and everything else is emitted literally. -/
def escapeChar (c : Char) : List Char :=
  if c = '\"' then ['\\', '\"']
  else if c = '\\' then ['\\', '\\']
  else if c = '\n' then ['\\', 'n']
  else if c = '\t' then ['\\', 't']
  else if c = '\r' then ['\\', 'r']
  else if c.toNat = 8 then ['\\', 'b']
  else if c.toNat = 12 then ['\\', 'f']
  else if c.toNat < 32 then
    ['\\', 'u', '0', '0', hexDigitChar (c.toNat / 16), hexDigitChar (c.toNat % 16)]
  else [c]

def escapeList : List Char → List Char
  | [] => []
  | c :: cs => escapeChar c ++ escapeList cs

/-- `JSON.stringify` of a string value. -/
def renderString (s : String) : List Char :=
  '\"' :: (escapeList s.data ++ ['\"'])

/-- Comma separator emitted before the rest of a non-empty array tail. -/
def arrSep : JsonArr → List Char
  | .nil => []
  | .cons _ _ => [',']

/-- Comma separator emitted before the rest of a non-empty object tail. -/
def objSep : JsonObj → List Char
  | .nil => []
  | .cons _ _ _ => [',']

mutual

/-- `JSON.stringify` (no indentation argument, hence no whitespace). -/
def renderJson : Json → List Char
  | .str s => renderString s
  | .arr elems => '[' :: (renderArr elems ++ [']'])
  | .obj members => '\x7b' :: (renderObj members ++ ['\x7d'])
  | .lit raw => raw

def renderArr : JsonArr → List Char
  | .nil => []
  | .cons x tl => renderJson x ++ (arrSep tl ++ renderArr tl)

def renderObj : JsonObj → List Char
  | .nil => []
  | .cons k v tl => renderString k ++ (':' :: renderJson v ++ (objSep tl ++ renderObj tl))

end

/-- Hex digit value, accepting both cases as `JSON.parse` does. -/
def hexVal (c : Char) : Option Nat :=
  if 48 ≤ c.toNat ∧ c.toNat ≤ 57 then some (c.toNat - 48)
  else if 97 ≤ c.toNat ∧ c.toNat ≤ 102 then some (c.toNat - 87)
  else if 65 ≤ c.toNat ∧ c.toNat ≤ 70 then some (c.toNat - 55)
  else none

/-- Parse the body of a JSON string (after the opening quote), returning the
decoded characters and the input remaining after the closing quote. -/
def parseStringBody : List Char → Option (List Char × List Char)
  | [] => none
  | c :: rest =>
    if c = '\"' then some ([], rest)
    else if c = '\\' then
      match rest with
      | [] => none
      | e :: rest2 =>
        if e = '\"' then (parseStringBody rest2).map (fun p => ('\"' :: p.1, p.2))
        else if e = '\\' then (parseStringBody rest2).map (fun p => ('\\' :: p.1, p.2))
        else if e = '/' then (parseStringBody rest2).map (fun p => ('/' :: p.1, p.2))
        else if e = 'b' then (parseStringBody rest2).map (fun p => (Char.ofNat 8 :: p.1, p.2))
        else if e = 'f' then (parseStringBody rest2).map (fun p => (Char.ofNat 12 :: p.1, p.2))
        else if e = 'n' then (parseStringBody rest2).map (fun p => ('\n' :: p.1, p.2))
        else if e = 'r' then (parseStringBody rest2).map (fun p => ('\r' :: p.1, p.2))
        else if e = 't' then (parseStringBody rest2).map (fun p => ('\t' :: p.1, p.2))
        else if e = 'u' then
          match rest2 with
          | h1 :: h2 :: h3 :: h4 :: rest3 =>
            match hexVal h1, hexVal h2, hexVal h3, hexVal h4 with
            | some a, some b, some c2, some d =>
              (parseStringBody rest3).map
                (fun p => (Char.ofNat (((a * 16 + b) * 16 + c2) * 16 + d) :: p.1, p.2))
            | _, _, _, _ => none
          | _ => none
        else none
    else if c.toNat < 32 then none
    else (parseStringBody rest).map (fun p => (c :: p.1, p.2))

/-- JSON insignificant whitespace: space, tab, LF and CR — exactly the
characters of `Char.isWhitespace`. -/
def skipWs (l : List Char) : List Char := l.dropWhile Char.isWhitespace

/-- Lex the optional exponent of a JSON number (`([eE][+-]?[0-9]+)?`),
returning the consumed lexeme and the remaining input. -/
def parseExp (input : List Char) : Option (List Char × List Char) :=
  match input with
  | [] => some ([], [])
  | e :: r =>
    if e = 'e' ∨ e = 'E' then
      let p :=
        match r with
        | '+' :: r3 => (['+'], r3)
        | '-' :: r3 => (['-'], r3)
        | _ => (([] : List Char), r)
      match p.2 with
      | [] => none
      | d :: r4 =>
        if d.isDigit then
          some (e :: (p.1 ++ d :: r4.takeWhile Char.isDigit),
                r4.dropWhile Char.isDigit)
        else none
    else some ([], input)

/-- Lex the optional fraction and exponent of a JSON number
(`(\.[0-9]+)?([eE][+-]?[0-9]+)?`). -/
def parseFracExp (input : List Char) : Option (List Char × List Char) :=
  match input with
  | '.' :: r =>
    match r with
    | [] => none
    | d :: r2 =>
      if d.isDigit then
        (parseExp (r2.dropWhile Char.isDigit)).map
          (fun p => ('.' :: d :: (r2.takeWhile Char.isDigit ++ p.1), p.2))
      else none
  | _ => parseExp input

/-- Lex a JSON number (`-?(0|[1-9][0-9]*)(\.[0-9]+)?([eE][+-]?[0-9]+)?`),
returning the lexeme and the remaining input. -/
def parseNumber (input : List Char) : Option (List Char × List Char) :=
  let p :=
    match input with
    | '-' :: r => (['-'], r)
    | _ => (([] : List Char), input)
  match p.2 with
  | [] => none
  | c :: r2 =>
    if c = '0' then
      (parseFracExp r2).map (fun q => (p.1 ++ '0' :: q.1, q.2))
    else if c.isDigit then
      (parseFracExp (r2.dropWhile Char.isDigit)).map
        (fun q => (p.1 ++ c :: (r2.takeWhile Char.isDigit ++ q.1), q.2))
    else none

mutual

/-- Fuel-indexed parser for a JSON value.  The caller has already skipped
leading whitespace; numbers, `true`, `false` and `null` are consumed as
lexemes (`Json.lit`). -/
def parseV : Nat → List Char → Option (Json × List Char)
  | 0, _ => none
  | _ + 1, [] => none
  | fuel + 1, c :: rest =>
    if c = '\"' then (parseStringBody rest).map (fun p => (Json.str ⟨p.1⟩, p.2))
    else if c = '[' then
      if (skipWs rest).head? = some ']' then some (Json.arr .nil, (skipWs rest).tail)
      else (parseElems fuel rest).map (fun p => (Json.arr p.1, p.2))
    else if c = '\x7b' then
      if (skipWs rest).head? = some '\x7d' then
        some (Json.obj .nil, (skipWs rest).tail)
      else (parseMembers fuel rest).map (fun p => (Json.obj p.1, p.2))
    else if c = 't' then
      match rest with
      | 'r' :: 'u' :: 'e' :: r => some (Json.lit ['t', 'r', 'u', 'e'], r)
      | _ => none
    else if c = 'f' then
      match rest with
      | 'a' :: 'l' :: 's' :: 'e' :: r => some (Json.lit ['f', 'a', 'l', 's', 'e'], r)
      | _ => none
    else if c = 'n' then
      match rest with
      | 'u' :: 'l' :: 'l' :: r => some (Json.lit ['n', 'u', 'l', 'l'], r)
      | _ => none
    else
      (parseNumber (c :: rest)).map (fun p => (Json.lit p.1, p.2))

/-- Parse the non-empty element list of an array (`element (',' element)*`
with `element = ws value ws`), consuming the closing `]`. -/
def parseElems : Nat → List Char → Option (JsonArr × List Char)
  | 0, _ => none
  | fuel + 1, input =>
    (parseV fuel (skipWs input)).bind fun p =>
      if (skipWs p.2).head? = some ',' then
        (parseElems fuel (skipWs p.2).tail).map
          (fun q => (JsonArr.cons p.1 q.1, q.2))
      else if (skipWs p.2).head? = some ']' then
        some (JsonArr.cons p.1 .nil, (skipWs p.2).tail)
      else none

/-- Parse the non-empty member list of an object
(`member (',' member)*` with `member = ws string ws ':' ws value ws`),
consuming the closing brace. -/
def parseMembers : Nat → List Char → Option (JsonObj × List Char)
  | 0, _ => none
  | fuel + 1, input =>
    match skipWs input with
    | [] => none
    | c :: rest =>
      if c = '\"' then
        (parseStringBody rest).bind fun kp =>
          if (skipWs kp.2).head? = some ':' then
            (parseV fuel (skipWs (skipWs kp.2).tail)).bind fun vp =>
              if (skipWs vp.2).head? = some ',' then
                (parseMembers fuel (skipWs vp.2).tail).map
                  (fun q => (JsonObj.cons ⟨kp.1⟩ vp.1 q.1, q.2))
              else if (skipWs vp.2).head? = some '\x7d' then
                some (JsonObj.cons ⟨kp.1⟩ vp.1 .nil, (skipWs vp.2).tail)
              else none
          else none
      else none

end

/-- Model of `JSON.parse`: parse `ws value ws`, requiring the whole input
to be consumed; `none` models the `SyntaxError` that `JSON.parse` throws.
The fuel `length + 1` dominates the parser's call depth: along any chain
of nested calls, every two successive fuel decrements consume at least
one input character (the bracket or brace opening a list, or the comma
between elements), while the unconsumed closing brackets still count
toward the length — so no input accepted by the JSON grammar is ever
rejected for lack of fuel. -/
def jsonParse (s : String) : Option Json :=
  match parseV (s.data.length + 1) (skipWs s.data) with
  | some (j, r) => if skipWs r = [] then some j else none
  | none => none

/-- The JSON value `JSON.stringify` sees for a list of tag strings. -/
def encodeTags : List String → JsonArr
  | [] => .nil
  | t :: ts => .cons (.str t) (encodeTags ts)

/-- The JSON value `JSON.stringify` sees for one `Note`: an object whose
members appear in the property insertion order of the source's object
literal (`id`, `title`, `content`, `tags`, `createdAt`, `updatedAt`). -/
def encodeNote (n : Note) : Json :=
  .obj (.cons "id" (.str n.id)
    (.cons "title" (.str n.title)
      (.cons "content" (.str n.content)
        (.cons "tags" (.arr (encodeTags n.tags))
          (.cons "createdAt" (.str n.createdAt)
            (.cons "updatedAt" (.str n.updatedAt) .nil))))))

/-- The JSON value `JSON.stringify` sees for the whole collection. -/
def encodeNotes : List Note → JsonArr
  | [] => .nil
  | n :: ns => .cons (encodeNote n) (encodeNotes ns)

/-- The blob the persist effect writes:
`localStorage.setItem('notes', JSON.stringify(notes))` (source lines 33-35). -/
def stringifyNotes (notes : List Note) : String :=
  ⟨renderJson (.arr (encodeNotes notes))⟩

/-- Reading a parsed JSON value back as the tag list of a note. -/
def decodeTags : JsonArr → Option (List String)
  | .nil => some []
  | .cons (.str t) tl => (decodeTags tl).map (fun ts => t :: ts)
  | _ => none

/-- Reading a parsed JSON value back as a `Note`: the source performs no
validation (`setNotes(JSON.parse(saved))` just installs the value), so this
decoder recognises exactly the shape the application itself persists. -/
def decodeNote : Json → Option Note
  | .obj (.cons "id" (.str i)
      (.cons "title" (.str t)
        (.cons "content" (.str c)
          (.cons "tags" (.arr tagsJson)
            (.cons "createdAt" (.str ca)
              (.cons "updatedAt" (.str ua) .nil)))))) =>
    (decodeTags tagsJson).map fun tags =>
      { id := i, title := t, content := c, tags := tags,
        createdAt := ca, updatedAt := ua }
  | _ => none

def decodeNoteList : JsonArr → Option (List Note)
  | .nil => some []
  | .cons j tl => (decodeNote j).bind fun n => (decodeNoteList tl).map (fun ns => n :: ns)

def decodeNotes : Json → Option (List Note)
  | .arr elems => decodeNoteList elems
  | _ => none

/-- Outcome of the load effect (source lines 26-31). -/
inductive LoadOutcome where
  | ok (notes : List Note)
  | corrupt (value : Json)
  | crash

/-- The load effect: `const saved = localStorage.getItem('notes');
if (saved) setNotes(JSON.parse(saved))`.  `if (saved)` is a truthiness
test: an absent key (`getItem` returns null) and a stored empty string
are both falsy, so in those cases `JSON.parse` is never called and the
initial `useState([])` value stays in place.  A present non-empty blob is
fed to `JSON.parse` with no `try`/`catch` around it: a parse error
propagates out of the effect (`crash`).  A blob that parses but is not an
array of note records is installed by `setNotes` as-is (`corrupt`): the
source performs no shape validation. -/
def loadNotes (stored : Option String) : LoadOutcome :=
  match stored with
  | none => .ok []
  | some s =>
    if s = "" then .ok []
    else
      match jsonParse s with
      | none => .crash
      | some j =>
        match decodeNotes j with
        | some ns => .ok ns
        | none => .corrupt j

/-!
## Helper lemmas
-/

/-- The blank test at the head of `saveNote`, in propositional form. -/
theorem saveNote_guard (now newId : String) (s : AppState)
    (h1 : jsTrim s.title = "") (h2 : jsTrim s.content = "") :
    saveNote now newId s = s := by
  unfold saveNote
  rw [if_pos]
  simp [h1, h2]

theorem saveNote_guard_false (s : AppState)
    (h : ¬(jsTrim s.title = "" ∧ jsTrim s.content = "")) :
    (jsTrim s.title == "" && jsTrim s.content == "") = false := by
  rcases Bool.eq_false_or_eq_true (jsTrim s.title == "" && jsTrim s.content == "") with hb | hb
  · exact absurd (by simpa [Bool.and_eq_true, beq_iff_eq] using hb) h
  · exact hb

theorem map_eq_self_of_forall {α : Type} (l : List α) (f : α → α)
    (h : ∀ a ∈ l, f a = a) : l.map f = l := by
  induction l with
  | nil => rfl
  | cons a tl ih =>
    simp only [List.map_cons, h a (by simp)]
    rw [ih fun a ha => h a (by simp [ha])]

/-!
## Claim theorems
-/

/-- C1 (counterexample): in an Editing state whose draft title and content
are whitespace-only, `saveNote` leaves the collection unchanged but does
NOT transition back to Browsing: the early `return` fires before
`setIsEditing(false)`, so `isEditing` stays `true`, contradicting the
claim that the session "nonetheless transitions back to the Browsing
state". -/
theorem saveNote_blank_stays_editing :
    (saveNote "2024-01-02T00:00:00.000Z" "1700000000000"
      { notes := [], searchQuery := "", selectedTag := none, isEditing := true,
        currentNote := none, title := "   ", content := "", tagInput := "",
        tags := [] }).notes = [] ∧
    ¬ (saveNote "2024-01-02T00:00:00.000Z" "1700000000000"
      { notes := [], searchQuery := "", selectedTag := none, isEditing := true,
        currentNote := none, title := "   ", content := "", tagInput := "",
        tags := [] }).isEditing = false := by
  constructor
  · decide
  · decide

/-- C1 (amended): when both the draft's title and content are empty or
whitespace-only after trimming, `saveNote` is a complete no-op: the
collection is unchanged AND the session stays in the Editing state with
the draft intact (the early return skips the transition to Browsing). -/
theorem saveNote_blank_noop (now newId : String) (s : AppState)
    (h1 : jsTrim s.title = "") (h2 : jsTrim s.content = "") :
    saveNote now newId s = s :=
  saveNote_guard now newId s h1 h2

/-- C1 witness: the amended no-op theorem applied at a concrete Editing
state with whitespace-only title and empty content. -/
theorem saveNote_blank_noop_witness :
    jsTrim "   " = "" ∧ jsTrim "" = "" ∧
    saveNote "2024-01-02T00:00:00.000Z" "1700000000000"
      { notes := [], searchQuery := "", selectedTag := none, isEditing := true,
        currentNote := none, title := "   ", content := "", tagInput := "",
        tags := [] } =
      { notes := [], searchQuery := "", selectedTag := none, isEditing := true,
        currentNote := none, title := "   ", content := "", tagInput := "",
        tags := [] } :=
  ⟨by decide, by decide,
    saveNote_blank_noop "2024-01-02T00:00:00.000Z" "1700000000000" _
      (by decide) (by decide)⟩

/-- C6: saving with both title and content blank after trimming adds
nothing (the collection is exactly as before); saving a non-blank draft
with no bound note (`currentNote = none`, the create path) prepends a new
note whose identifier is the freshly generated `newId` and whose
`createdAt` and `updatedAt` are both `now`, leaving the existing notes
unchanged behind it. -/
theorem saveNote_create_spec (now newId : String) (s : AppState) :
    (jsTrim s.title = "" ∧ jsTrim s.content = "" →
      (saveNote now newId s).notes = s.notes) ∧
    (¬(jsTrim s.title = "" ∧ jsTrim s.content = "") → s.currentNote = none →
      (saveNote now newId s).notes =
        { id := newId, title := s.title, content := s.content, tags := s.tags,
          createdAt := now, updatedAt := now } :: s.notes) := by
  constructor
  · intro h
    rw [saveNote_guard now newId s h.1 h.2]
  · intro h hcn
    unfold saveNote
    rw [saveNote_guard_false s h]
    simp only [Bool.false_eq_true, if_false, hcn]

/-- C6 witness: the blank pair `("  ", "")` creates nothing, while the
non-blank draft `("Groceries", "Milk, eggs")` is prepended with the fresh
identifier and both timestamps set to `now`. -/
theorem saveNote_create_spec_witness :
    ((jsTrim "  " = "" ∧ jsTrim "" = "") ∧
      (saveNote "2024-01-02T00:00:00.000Z" "1700000000000"
        { notes := [{ id := "9", title := "old", content := "c", tags := [],
                      createdAt := "t0", updatedAt := "t0" }],
          searchQuery := "", selectedTag := none, isEditing := true,
          currentNote := none, title := "  ", content := "", tagInput := "",
          tags := [] }).notes =
        [{ id := "9", title := "old", content := "c", tags := [],
           createdAt := "t0", updatedAt := "t0" }]) ∧
    (¬(jsTrim "Groceries" = "" ∧ jsTrim "Milk, eggs" = "") ∧
      (saveNote "2024-01-02T00:00:00.000Z" "1700000000000"
        { notes := [{ id := "9", title := "old", content := "c", tags := [],
                      createdAt := "t0", updatedAt := "t0" }],
          searchQuery := "", selectedTag := none, isEditing := true,
          currentNote := none, title := "Groceries", content := "Milk, eggs",
          tagInput := "", tags := ["home"] }).notes =
        [{ id := "1700000000000", title := "Groceries", content := "Milk, eggs",
           tags := ["home"], createdAt := "2024-01-02T00:00:00.000Z",
           updatedAt := "2024-01-02T00:00:00.000Z" },
         { id := "9", title := "old", content := "c", tags := [],
           createdAt := "t0", updatedAt := "t0" }]) :=
  ⟨⟨⟨by decide, by decide⟩,
    (saveNote_create_spec "2024-01-02T00:00:00.000Z" "1700000000000" _).1
      ⟨by decide, by decide⟩⟩,
   ⟨by decide,
    (saveNote_create_spec "2024-01-02T00:00:00.000Z" "1700000000000" _).2
      (by decide) rfl⟩⟩

/-- C5: on the update path (a bound note `cn`, non-blank draft), if the
collection splits as `pre ++ n :: post` with `n` the unique note carrying
`cn`'s identifier, then saving replaces exactly `n`'s title, content and
tags and sets its `updatedAt` to `now`, while `n`'s `id` and `createdAt`
are untouched (the record update below leaves them as `n`'s) and every
note of `pre` and `post` is unchanged. -/
theorem saveNote_update_frame (now newId : String) (s : AppState) (cn n : Note)
    (pre post : List Note)
    (hcn : s.currentNote = some cn)
    (hblank : ¬(jsTrim s.title = "" ∧ jsTrim s.content = ""))
    (hsplit : s.notes = pre ++ n :: post)
    (hid : n.id = cn.id)
    (hpre : ∀ m ∈ pre, m.id ≠ cn.id)
    (hpost : ∀ m ∈ post, m.id ≠ cn.id) :
    (saveNote now newId s).notes =
      pre ++ { n with title := s.title, content := s.content, tags := s.tags,
                      updatedAt := now } :: post ∧
    ({ n with title := s.title, content := s.content, tags := s.tags,
              updatedAt := now } : Note).id = n.id ∧
    ({ n with title := s.title, content := s.content, tags := s.tags,
              updatedAt := now } : Note).createdAt = n.createdAt := by
  refine ⟨?_, rfl, rfl⟩
  unfold saveNote
  rw [saveNote_guard_false s hblank]
  simp only [Bool.false_eq_true, if_false, hcn]
  rw [hsplit, List.map_append, List.map_cons, if_pos hid]
  rw [map_eq_self_of_forall pre _ fun m hm => if_neg (hpre m hm)]
  rw [map_eq_self_of_forall post _ fun m hm => if_neg (hpost m hm)]

/-- C5 witness: a three-note collection where the middle note is bound;
saving replaces exactly that note and leaves its neighbours alone. -/
theorem saveNote_update_frame_witness :
    (saveNote "2024-01-02T00:00:00.000Z" "1700000000000"
      { notes := [{ id := "1", title := "a", content := "", tags := [],
                    createdAt := "t1", updatedAt := "t1" },
                  { id := "2", title := "b", content := "", tags := ["x"],
                    createdAt := "t2", updatedAt := "t2" },
                  { id := "3", title := "c", content := "", tags := [],
                    createdAt := "t3", updatedAt := "t3" }],
        searchQuery := "", selectedTag := none, isEditing := true,
        currentNote := some { id := "2", title := "b", content := "", tags := ["x"],
                              createdAt := "t2", updatedAt := "t2" },
        title := "B2", content := "new body", tagInput := "",
        tags := ["x", "y"] }).notes =
      [{ id := "1", title := "a", content := "", tags := [],
         createdAt := "t1", updatedAt := "t1" },
       { id := "2", title := "B2", content := "new body", tags := ["x", "y"],
         createdAt := "t2", updatedAt := "2024-01-02T00:00:00.000Z" },
       { id := "3", title := "c", content := "", tags := [],
         createdAt := "t3", updatedAt := "t3" }] :=
  (saveNote_update_frame "2024-01-02T00:00:00.000Z" "1700000000000" _
    { id := "2", title := "b", content := "", tags := ["x"],
      createdAt := "t2", updatedAt := "t2" }
    { id := "2", title := "b", content := "", tags := ["x"],
      createdAt := "t2", updatedAt := "t2" }
    [{ id := "1", title := "a", content := "", tags := [],
       createdAt := "t1", updatedAt := "t1" }]
    [{ id := "3", title := "c", content := "", tags := [],
       createdAt := "t3", updatedAt := "t3" }]
    rfl (by decide) rfl rfl (by decide) (by decide)).1

/-- C8: with the confirmation accepted, `deleteNote` removes the note
carrying the given identifier: if the collection splits as
`pre ++ n :: post` with `n` the unique note whose id is `noteId`, the
resulting collection is exactly `pre ++ post` (and no note with that
identifier remains); deleting twice yields the same state as deleting
once; and deleting an identifier carried by no note is a silent no-op. -/
theorem deleteNote_spec (noteId : String) (s : AppState) (n : Note)
    (pre post : List Note)
    (hsplit : s.notes = pre ++ n :: post)
    (hn : n.id = noteId)
    (hpre : ∀ m ∈ pre, m.id ≠ noteId)
    (hpost : ∀ m ∈ post, m.id ≠ noteId) :
    (deleteNote true noteId s).notes = pre ++ post ∧
    (∀ m ∈ (deleteNote true noteId s).notes, m.id ≠ noteId) ∧
    (∀ s' : AppState,
      deleteNote true noteId (deleteNote true noteId s') = deleteNote true noteId s') ∧
    (∀ s' : AppState,
      (∀ m ∈ s'.notes, m.id ≠ noteId) → deleteNote true noteId s' = s') := by
  refine ⟨?_, ?_, ?_, ?_⟩
  · simp only [deleteNote, if_pos]
    rw [hsplit, List.filter_append, List.filter_cons]
    rw [List.filter_eq_self.mpr fun m hm => bne_iff_ne.mpr (hpre m hm)]
    rw [List.filter_eq_self.mpr fun m hm => bne_iff_ne.mpr (hpost m hm)]
    have : (n.id != noteId) = false := by
      rw [hn]
      exact bne_self_eq_false noteId
    simp [this]
  · intro m hm
    simp only [deleteNote, if_pos, List.mem_filter] at hm
    exact bne_iff_ne.mp hm.2
  · intro s'
    simp [deleteNote, List.filter_filter]
  · intro s' h
    simp only [deleteNote, if_pos]
    have : s'.notes.filter (fun note => note.id != noteId) = s'.notes :=
      List.filter_eq_self.mpr fun m hm => bne_iff_ne.mpr (h m hm)
    simp [this]

/-- C8 witness: deleting id "2" from a three-note collection removes
exactly that note; double deletion of id "2" equals single deletion; and
deleting id "7", which no note carries, is a no-op. -/
theorem deleteNote_spec_witness :
    (deleteNote true "2"
      { notes := [{ id := "1", title := "a", content := "", tags := [],
                    createdAt := "t1", updatedAt := "t1" },
                  { id := "2", title := "b", content := "", tags := [],
                    createdAt := "t2", updatedAt := "t2" },
                  { id := "3", title := "c", content := "", tags := [],
                    createdAt := "t3", updatedAt := "t3" }],
        searchQuery := "", selectedTag := none, isEditing := false,
        currentNote := none, title := "", content := "", tagInput := "",
        tags := [] }).notes =
      [{ id := "1", title := "a", content := "", tags := [],
         createdAt := "t1", updatedAt := "t1" },
       { id := "3", title := "c", content := "", tags := [],
         createdAt := "t3", updatedAt := "t3" }] ∧
    deleteNote true "2" (deleteNote true "2"
      { notes := [{ id := "1", title := "a", content := "", tags := [],
                    createdAt := "t1", updatedAt := "t1" },
                  { id := "2", title := "b", content := "", tags := [],
                    createdAt := "t2", updatedAt := "t2" },
                  { id := "3", title := "c", content := "", tags := [],
                    createdAt := "t3", updatedAt := "t3" }],
        searchQuery := "", selectedTag := none, isEditing := false,
        currentNote := none, title := "", content := "", tagInput := "",
        tags := [] }) =
      deleteNote true "2"
      { notes := [{ id := "1", title := "a", content := "", tags := [],
                    createdAt := "t1", updatedAt := "t1" },
                  { id := "2", title := "b", content := "", tags := [],
                    createdAt := "t2", updatedAt := "t2" },
                  { id := "3", title := "c", content := "", tags := [],
                    createdAt := "t3", updatedAt := "t3" }],
        searchQuery := "", selectedTag := none, isEditing := false,
        currentNote := none, title := "", content := "", tagInput := "",
        tags := [] } ∧
    deleteNote true "7"
      { notes := [{ id := "1", title := "a", content := "", tags := [],
                    createdAt := "t1", updatedAt := "t1" }],
        searchQuery := "", selectedTag := none, isEditing := false,
        currentNote := none, title := "", content := "", tagInput := "",
        tags := [] } =
      { notes := [{ id := "1", title := "a", content := "", tags := [],
                    createdAt := "t1", updatedAt := "t1" }],
        searchQuery := "", selectedTag := none, isEditing := false,
        currentNote := none, title := "", content := "", tagInput := "",
        tags := [] } := by
  have T := deleteNote_spec "2"
    { notes := [{ id := "1", title := "a", content := "", tags := [],
                  createdAt := "t1", updatedAt := "t1" },
                { id := "2", title := "b", content := "", tags := [],
                  createdAt := "t2", updatedAt := "t2" },
                { id := "3", title := "c", content := "", tags := [],
                  createdAt := "t3", updatedAt := "t3" }],
      searchQuery := "", selectedTag := none, isEditing := false,
      currentNote := none, title := "", content := "", tagInput := "",
      tags := [] }
    { id := "2", title := "b", content := "", tags := [],
      createdAt := "t2", updatedAt := "t2" }
    [{ id := "1", title := "a", content := "", tags := [],
       createdAt := "t1", updatedAt := "t1" }]
    [{ id := "3", title := "c", content := "", tags := [],
       createdAt := "t3", updatedAt := "t3" }]
    rfl rfl (by decide) (by decide)
  refine ⟨T.1, T.2.2.1 _, ?_⟩
  have T7 := deleteNote_spec "7"
    { notes := [{ id := "7", title := "x", content := "", tags := [],
                  createdAt := "t7", updatedAt := "t7" }],
      searchQuery := "", selectedTag := none, isEditing := false,
      currentNote := none, title := "", content := "", tagInput := "",
      tags := [] }
    { id := "7", title := "x", content := "", tags := [],
      createdAt := "t7", updatedAt := "t7" }
    [] [] rfl rfl (by decide) (by decide)
  exact T7.2.2.2
    { notes := [{ id := "1", title := "a", content := "", tags := [],
                  createdAt := "t1", updatedAt := "t1" }],
      searchQuery := "", selectedTag := none, isEditing := false,
      currentNote := none, title := "", content := "", tagInput := "",
      tags := [] } (by decide)

/-- C10: every note present in the collection after a save either was
already there or carries the draft's title and content verbatim — the
trimming in the emptiness guard is never applied to the stored values. -/
theorem saveNote_verbatim (now newId : String) (s : AppState) (n : Note)
    (hn : n ∈ (saveNote now newId s).notes) :
    n ∈ s.notes ∨ (n.title = s.title ∧ n.content = s.content) := by
  by_cases hb : jsTrim s.title = "" ∧ jsTrim s.content = ""
  · rw [saveNote_guard now newId s hb.1 hb.2] at hn
    exact Or.inl hn
  · unfold saveNote at hn
    rw [saveNote_guard_false s hb] at hn
    simp only [Bool.false_eq_true, if_false] at hn
    cases hcn : s.currentNote with
    | none =>
      rw [hcn] at hn
      simp only [List.mem_cons] at hn
      rcases hn with rfl | hn
      · exact Or.inr ⟨rfl, rfl⟩
      · exact Or.inl hn
    | some cn =>
      rw [hcn] at hn
      simp only [List.mem_map] at hn
      obtain ⟨m, hm, rfl⟩ := hn
      by_cases hid : m.id = cn.id
      · rw [if_pos hid]
        exact Or.inr ⟨rfl, rfl⟩
      · rw [if_neg hid]
        exact Or.inl hm

/-- C10 witness: a title of `"  x  "` with surrounding whitespace is stored
exactly as typed by the create path. -/
theorem saveNote_verbatim_witness :
    { id := "1700000000000", title := "  x  ", content := " body ",
      tags := ([] : List String), createdAt := "t", updatedAt := "t" } ∈
      (saveNote "t" "1700000000000"
        { notes := [], searchQuery := "", selectedTag := none, isEditing := true,
          currentNote := none, title := "  x  ", content := " body ",
          tagInput := "", tags := [] }).notes ∧
    (({ id := "1700000000000", title := "  x  ", content := " body ",
        tags := ([] : List String), createdAt := "t", updatedAt := "t" } : Note) ∈
        ([] : List Note) ∨
      (({ id := "1700000000000", title := "  x  ", content := " body ",
          tags := ([] : List String), createdAt := "t", updatedAt := "t" } : Note).title
          = "  x  " ∧
       ({ id := "1700000000000", title := "  x  ", content := " body ",
          tags := ([] : List String), createdAt := "t", updatedAt := "t" } : Note).content
          = " body ")) :=
  ⟨by decide,
    saveNote_verbatim "t" "1700000000000"
      { notes := [], searchQuery := "", selectedTag := none, isEditing := true,
        currentNote := none, title := "  x  ", content := " body ",
        tagInput := "", tags := [] } _ (by decide)⟩

/-- C3: for every timestamp interpretation, collection, search query and
tag selection, a note appears in the visible list iff it is in the
collection and passes both the search predicate and the tag predicate. -/
theorem filteredNotes_mem_iff (time : String → Int) (notes : List Note)
    (q : String) (sel : Option String) (n : Note) :
    n ∈ filteredNotes time notes q sel ↔
      n ∈ notes ∧ matchesSearch q n = true ∧ matchesTag sel n = true := by
  unfold filteredNotes
  rw [List.mem_mergeSort, List.mem_filter, Bool.and_eq_true]

/-- The comparator of `filteredNotes` is transitive. -/
theorem timeLE_trans (time : String → Int) :
    ∀ a b c : Note,
      decide (time b.updatedAt ≤ time a.updatedAt) = true →
      decide (time c.updatedAt ≤ time b.updatedAt) = true →
      decide (time c.updatedAt ≤ time a.updatedAt) = true := by
  intro a b c h1 h2
  simp only [decide_eq_true_eq] at h1 h2 ⊢
  omega

/-- The comparator of `filteredNotes` is total. -/
theorem timeLE_total (time : String → Int) :
    ∀ a b : Note,
      (decide (time b.updatedAt ≤ time a.updatedAt) ||
       decide (time a.updatedAt ≤ time b.updatedAt)) = true := by
  intro a b
  simp only [Bool.or_eq_true, decide_eq_true_eq]
  exact Int.le_total _ _

/-- C4: the visible list is non-increasing in `updatedAt` (interpreted
through the external `Date` parse `time`), and ties are broken
deterministically by keeping the stable input order: any tied pair that
occurs in order in the filtered input still occurs in that order in the
visible list. -/
theorem filteredNotes_sorted (time : String → Int) (notes : List Note)
    (q : String) (sel : Option String) :
    (filteredNotes time notes q sel).Pairwise
      (fun a b => time b.updatedAt ≤ time a.updatedAt) ∧
    (∀ a b : Note, time a.updatedAt = time b.updatedAt →
      List.Sublist [a, b]
        (notes.filter (fun n => matchesSearch q n && matchesTag sel n)) →
      List.Sublist [a, b] (filteredNotes time notes q sel)) := by
  constructor
  · have h := List.sorted_mergeSort (timeLE_trans time) (timeLE_total time)
      (notes.filter (fun n => matchesSearch q n && matchesTag sel n))
    exact h.imp (by simp)
  · intro a b htie hsub
    exact List.pair_sublist_mergeSort (timeLE_trans time) (timeLE_total time)
      (by simp [htie]) hsub

/-- C4 witness: with a constant timestamp interpretation every pair is a
tie; for a two-note collection passing the trivial filters, the sorted
order and the preserved tied pair are both observed. -/
theorem filteredNotes_sorted_witness :
    (filteredNotes (fun _ => (0 : Int))
        [{ id := "1", title := "a", content := "", tags := [],
           createdAt := "t1", updatedAt := "t1" },
         { id := "2", title := "b", content := "", tags := [],
           createdAt := "t2", updatedAt := "t2" }] "" none).Pairwise
      (fun a b => (fun _ => (0 : Int)) b.updatedAt ≤ (fun _ => (0 : Int)) a.updatedAt) ∧
    List.Sublist
      [{ id := "1", title := "a", content := "", tags := [],
         createdAt := "t1", updatedAt := "t1" },
       { id := "2", title := "b", content := "", tags := [],
         createdAt := "t2", updatedAt := "t2" }]
      (filteredNotes (fun _ => (0 : Int))
        [{ id := "1", title := "a", content := "", tags := [],
           createdAt := "t1", updatedAt := "t1" },
         { id := "2", title := "b", content := "", tags := [],
           createdAt := "t2", updatedAt := "t2" }] "" none) :=
  ⟨(filteredNotes_sorted (fun _ => (0 : Int)) _ "" none).1,
   (filteredNotes_sorted (fun _ => (0 : Int)) _ "" none).2 _ _ rfl (by decide)⟩

/-!
## Normalization of tags

`addTag` stores `tagInput.trim().toLowerCase()`.  The claim that repeated
`addTag` calls never produce duplicates "after trimming and lowercasing"
needs that this normalization is idempotent, which we prove from the
character-level behaviour of `toLower` and whitespace.
-/

/-- Tag normalization as performed by `addTag`. -/
def normalizeTag (s : String) : String := jsToLower (jsTrim s)

theorem toNat_ofNat_valid (n : Nat) (h : n.isValidChar) :
    (Char.ofNat n).toNat = n := by
  unfold Char.ofNat
  rw [dif_pos h]
  rfl

theorem toLower_eq_self (c : Char) (h : ¬(c.toNat ≥ 65 ∧ c.toNat ≤ 90)) :
    c.toLower = c := by
  unfold Char.toLower
  rw [if_neg h]

theorem toNat_toLower_upper (c : Char) (h : c.toNat ≥ 65 ∧ c.toNat ≤ 90) :
    c.toLower.toNat = c.toNat + 32 := by
  unfold Char.toLower
  rw [if_pos h]
  exact toNat_ofNat_valid _ (Or.inl (by omega))

theorem toLower_idem (c : Char) : c.toLower.toLower = c.toLower := by
  by_cases h : c.toNat ≥ 65 ∧ c.toNat ≤ 90
  · have ht := toNat_toLower_upper c h
    exact toLower_eq_self _ (by omega)
  · rw [toLower_eq_self c h, toLower_eq_self c h]

theorem toNat_of_isWhitespace (c : Char) (h : c.isWhitespace = true) :
    c.toNat = 32 ∨ c.toNat = 9 ∨ c.toNat = 13 ∨ c.toNat = 10 := by
  simp only [Char.isWhitespace, Bool.or_eq_true, decide_eq_true_eq] at h
  rcases h with ((h | h) | h) | h <;> subst h <;> simp

theorem isWhitespace_toLower (c : Char) :
    c.toLower.isWhitespace = c.isWhitespace := by
  by_cases h : c.toNat ≥ 65 ∧ c.toNat ≤ 90
  · have ht := toNat_toLower_upper c h
    have h1 : c.isWhitespace = false := by
      rcases Bool.eq_false_or_eq_true c.isWhitespace with hb | hb
      · exact absurd (toNat_of_isWhitespace c hb) (by omega)
      · exact hb
    have h2 : c.toLower.isWhitespace = false := by
      rcases Bool.eq_false_or_eq_true c.toLower.isWhitespace with hb | hb
      · exact absurd (toNat_of_isWhitespace _ hb) (by omega)
      · exact hb
    rw [h1, h2]
  · rw [toLower_eq_self c h]

theorem map_toLower_idem (l : List Char) :
    (l.map Char.toLower).map Char.toLower = l.map Char.toLower := by
  rw [List.map_map]
  exact List.map_congr_left fun a _ => toLower_idem a

theorem dropWhile_ws_map_toLower (l : List Char) :
    (l.map Char.toLower).dropWhile Char.isWhitespace =
      (l.dropWhile Char.isWhitespace).map Char.toLower := by
  have hp : (Char.isWhitespace ∘ Char.toLower) = Char.isWhitespace :=
    funext isWhitespace_toLower
  rw [List.dropWhile_map, hp]

theorem rdropWhile_ws_map_toLower (l : List Char) :
    List.rdropWhile Char.isWhitespace (l.map Char.toLower) =
      (List.rdropWhile Char.isWhitespace l).map Char.toLower := by
  unfold List.rdropWhile
  rw [← List.map_reverse, dropWhile_ws_map_toLower, List.map_reverse]

theorem jsTrim_jsToLower (s : String) :
    jsTrim (jsToLower s) = jsToLower (jsTrim s) := by
  unfold jsTrim jsToLower
  simp only
  rw [dropWhile_ws_map_toLower, rdropWhile_ws_map_toLower]

theorem dropWhile_rdropWhile_fix {α : Type} (p : α → Bool) (m : List α)
    (hm : m.dropWhile p = m) :
    (List.rdropWhile p m).dropWhile p = List.rdropWhile p m := by
  rw [List.dropWhile_eq_self_iff]
  intro hl
  have hpre : List.rdropWhile p m <+: m := List.rdropWhile_prefix p m
  have hlen : 0 < m.length := Nat.lt_of_lt_of_le hl hpre.length_le
  have hget : (List.rdropWhile p m).get ⟨0, hl⟩ = m.get ⟨0, hlen⟩ := by
    simpa using hpre.getElem (n := 0) hl
  rw [hget]
  exact (List.dropWhile_eq_self_iff.mp hm) hlen

theorem jsTrim_idem (s : String) : jsTrim (jsTrim s) = jsTrim s := by
  unfold jsTrim
  simp only
  rw [dropWhile_rdropWhile_fix Char.isWhitespace _ (List.dropWhile_idempotent _ _)]
  rw [List.rdropWhile_idempotent]

theorem jsToLower_idem (s : String) : jsToLower (jsToLower s) = jsToLower s := by
  unfold jsToLower
  simp only
  rw [map_toLower_idem]

/-- Normalizing an already-normalized tag changes nothing. -/
theorem normalizeTag_idem (s : String) :
    normalizeTag (normalizeTag s) = normalizeTag s := by
  unfold normalizeTag
  rw [jsTrim_jsToLower, jsTrim_idem, jsToLower_idem]

/-- A sequence of `addTag` calls, `inputs` being the successive contents of
the tag-input buffer typed by the user before each call. -/
def addTagSeq (inputs : List String) (s : AppState) : AppState :=
  inputs.foldl (fun st inp => addTag { st with tagInput := inp }) s

/-- Invariant maintained by `addTag`: the draft's tags are duplicate-free
and each is a fixed point of the trim-lowercase normalization. -/
def TagsInv (tags : List String) : Prop :=
  tags.Nodup ∧ ∀ t ∈ tags, normalizeTag t = t

theorem addTag_characterization (s : AppState) :
    addTag s =
      if normalizeTag s.tagInput ≠ "" ∧ normalizeTag s.tagInput ∉ s.tags then
        { s with tags := s.tags ++ [normalizeTag s.tagInput], tagInput := "" }
      else s := by
  unfold addTag normalizeTag
  by_cases h : jsToLower (jsTrim s.tagInput) ≠ "" ∧ jsToLower (jsTrim s.tagInput) ∉ s.tags
  · rw [if_pos h, if_pos]
    simp only [Bool.and_eq_true, bne_iff_ne, Bool.not_eq_true', ne_eq]
    exact ⟨h.1, by simpa using h.2⟩
  · rw [if_neg h, if_neg]
    simp only [Bool.and_eq_true, bne_iff_ne, Bool.not_eq_true', ne_eq]
    intro hc
    exact h ⟨hc.1, by simpa using hc.2⟩

theorem addTag_inv (s : AppState) (h : TagsInv s.tags) : TagsInv (addTag s).tags := by
  rw [addTag_characterization s]
  by_cases hc : normalizeTag s.tagInput ≠ "" ∧ normalizeTag s.tagInput ∉ s.tags
  · rw [if_pos hc]
    refine ⟨?_, ?_⟩
    · rw [List.nodup_append]
      refine ⟨h.1, List.nodup_singleton _, ?_⟩
      intro a ha hb
      rw [List.mem_singleton] at hb
      exact hc.2 (hb ▸ ha)
    · intro t ht
      rcases List.mem_append.mp ht with ht | ht
      · exact h.2 t ht
      · have : t = normalizeTag s.tagInput := by simpa using ht
        rw [this]
        exact normalizeTag_idem _
  · rw [if_neg hc]
    exact h

theorem addTagSeq_inv (inputs : List String) (s : AppState)
    (h : TagsInv s.tags) : TagsInv (addTagSeq inputs s).tags := by
  induction inputs generalizing s with
  | nil => exact h
  | cons i tl ih =>
    exact ih (addTag { s with tagInput := i }) (addTag_inv _ h)

/-- C9: starting from the empty draft opened by `createNote`, any sequence
of `addTag` calls leaves a tag list with no duplicates even after
re-normalizing (trim + lowercase) each entry; and a single `addTag`
appends the normalized pending input and clears the buffer exactly when
that value is non-empty and not already present, and otherwise leaves the
state unchanged. -/
theorem addTag_dedup (inputs : List String) (s0 : AppState) :
    ((addTagSeq inputs (createNote s0)).tags.map normalizeTag).Nodup ∧
    (∀ s : AppState,
      addTag s =
        if normalizeTag s.tagInput ≠ "" ∧ normalizeTag s.tagInput ∉ s.tags then
          { s with tags := s.tags ++ [normalizeTag s.tagInput], tagInput := "" }
        else s) := by
  refine ⟨?_, addTag_characterization⟩
  have hinv : TagsInv (addTagSeq inputs (createNote s0)).tags :=
    addTagSeq_inv inputs (createNote s0) ⟨List.nodup_nil, by simp [createNote]⟩
  rw [map_eq_self_of_forall _ _ hinv.2]
  exact hinv.1

/-- C9 witness: the inputs `" Home "`, `"HOME"`, `""`, `"work"` yield the
duplicate-free normalized tag list `["home", "work"]`. -/
theorem addTag_dedup_witness :
    ((addTagSeq [" Home ", "HOME", "", "work"]
        (createNote
          { notes := [], searchQuery := "", selectedTag := none,
            isEditing := false, currentNote := none, title := "",
            content := "", tagInput := "", tags := [] })).tags.map
      normalizeTag).Nodup ∧
    (addTagSeq [" Home ", "HOME", "", "work"]
        (createNote
          { notes := [], searchQuery := "", selectedTag := none,
            isEditing := false, currentNote := none, title := "",
            content := "", tagInput := "", tags := [] })).tags =
      ["home", "work"] :=
  ⟨(addTag_dedup [" Home ", "HOME", "", "work"] _).1, by decide⟩

/-!
## Round trip of the persisted blob

`JSON.parse ∘ JSON.stringify` is the identity on the values the
application persists; we prove it for the modelled printer and parser.
-/

theorem hexVal_hexDigitChar (n : Nat) (h : n < 16) :
    hexVal (hexDigitChar n) = some n := by
  interval_cases n <;> decide

theorem parseStringBody_escape (l : List Char) :
    ∀ rest : List Char,
      parseStringBody (escapeList l ++ '\"' :: rest) = some (l, rest) := by
  induction l with
  | nil =>
    intro rest
    show parseStringBody ('\"' :: rest) = _
    rw [parseStringBody.eq_def]
    simp
  | cons c l ih =>
    intro rest
    show parseStringBody ((escapeChar c ++ escapeList l) ++ '\"' :: rest) = _
    rw [List.append_assoc]
    by_cases h1 : c = '\"'
    · subst h1
      rw [show escapeChar '\"' = ['\\', '\"'] from rfl]
      simp only [List.cons_append, List.nil_append]
      rw [parseStringBody.eq_def]
      simp [ih]
    by_cases h2 : c = '\\'
    · subst h2
      rw [show escapeChar '\\' = ['\\', '\\'] from rfl]
      simp only [List.cons_append, List.nil_append]
      rw [parseStringBody.eq_def]
      simp [ih]
    by_cases h3 : c = '\n'
    · subst h3
      rw [show escapeChar '\n' = ['\\', 'n'] from rfl]
      simp only [List.cons_append, List.nil_append]
      rw [parseStringBody.eq_def]
      simp [ih]
    by_cases h4 : c = '\t'
    · subst h4
      rw [show escapeChar '\t' = ['\\', 't'] from rfl]
      simp only [List.cons_append, List.nil_append]
      rw [parseStringBody.eq_def]
      simp [ih]
    by_cases h5 : c = '\r'
    · subst h5
      rw [show escapeChar '\r' = ['\\', 'r'] from rfl]
      simp only [List.cons_append, List.nil_append]
      rw [parseStringBody.eq_def]
      simp [ih]
    by_cases h6 : c.toNat = 8
    · have hc : c = Char.ofNat 8 := by rw [← Char.ofNat_toNat c, h6]
      subst hc
      rw [show escapeChar (Char.ofNat 8) = ['\\', 'b'] from rfl]
      simp only [List.cons_append, List.nil_append]
      rw [parseStringBody.eq_def]
      simp [ih]
    by_cases h7 : c.toNat = 12
    · have hc : c = Char.ofNat 12 := by rw [← Char.ofNat_toNat c, h7]
      subst hc
      rw [show escapeChar (Char.ofNat 12) = ['\\', 'f'] from rfl]
      simp only [List.cons_append, List.nil_append]
      rw [parseStringBody.eq_def]
      simp [ih]
    by_cases h8 : c.toNat < 32
    · have hesc : escapeChar c =
        ['\\', 'u', '0', '0', hexDigitChar (c.toNat / 16),
         hexDigitChar (c.toNat % 16)] := by
        unfold escapeChar
        rw [if_neg h1, if_neg h2, if_neg h3, if_neg h4, if_neg h5,
            if_neg h6, if_neg h7, if_pos h8]
      have hv1 : hexVal (hexDigitChar (c.toNat / 16)) = some (c.toNat / 16) :=
        hexVal_hexDigitChar _ (by omega)
      have hv2 : hexVal (hexDigitChar (c.toNat % 16)) = some (c.toNat % 16) :=
        hexVal_hexDigitChar _ (by omega)
      rw [hesc]
      simp only [List.cons_append, List.nil_append]
      rw [parseStringBody.eq_def]
      have hz : hexVal '0' = some 0 := rfl
      simp [hz, hv1, hv2, ih]
      rw [show c.toNat / 16 * 16 + c.toNat % 16 = c.toNat by omega, Char.ofNat_toNat]
    · have hesc : escapeChar c = [c] := by
        unfold escapeChar
        rw [if_neg h1, if_neg h2, if_neg h3, if_neg h4, if_neg h5,
            if_neg h6, if_neg h7, if_neg h8]
      rw [hesc]
      simp only [List.cons_append, List.nil_append]
      rw [parseStringBody.eq_def]
      simp [h1, h2, h8, ih]

mutual

/-- Fuel needed by `parseV` to parse the rendering of `j`.  A `lit` is
never produced by the application's own serialization, so its cost is 0
(which also keeps the cost below the rendered length). -/
def costV : Json → Nat
  | .str _ => 1
  | .arr elems => 1 + costElems elems
  | .obj members => 1 + costMembers members
  | .lit _ => 0

def costElems : JsonArr → Nat
  | .nil => 0
  | .cons x tl => 1 + costV x + costElems tl

def costMembers : JsonObj → Nat
  | .nil => 0
  | .cons _ v tl => 1 + costV v + costMembers tl

end

mutual

/-- The JSON fragment the application's own serialization produces:
strings, arrays and objects only — no numbers, booleans or nulls. -/
def textualV : Json → Bool
  | .str _ => true
  | .arr elems => textualElems elems
  | .obj members => textualMembers members
  | .lit _ => false

def textualElems : JsonArr → Bool
  | .nil => true
  | .cons x tl => textualV x && textualElems tl

def textualMembers : JsonObj → Bool
  | .nil => true
  | .cons _ v tl => textualV v && textualMembers tl

end

/-- Every rendered textual JSON value starts with a quote, a bracket or a
brace. -/
theorem renderJson_head (j : Json) (ht : textualV j = true) :
    ∃ cs, (renderJson j = '\"' :: cs ∨ renderJson j = '[' :: cs ∨
           renderJson j = '\x7b' :: cs) := by
  cases j with
  | str s => exact ⟨escapeList s.data ++ ['\"'], Or.inl rfl⟩
  | arr elems => exact ⟨renderArr elems ++ [']'], Or.inr (Or.inl rfl)⟩
  | obj members => exact ⟨renderObj members ++ ['\x7d'], Or.inr (Or.inr rfl)⟩
  | lit raw => exact absurd ht (by simp [textualV])

/-- `skipWs` is the identity when the first character is not whitespace. -/
theorem skipWs_cons (c : Char) (l : List Char) (h : c.isWhitespace = false) :
    skipWs (c :: l) = c :: l := by
  simp [skipWs, List.dropWhile_cons, h]

/-- `skipWs` is the identity on a rendered textual value followed by
anything: renders never start with whitespace. -/
theorem skipWs_renderJson_append (j : Json) (ht : textualV j = true)
    (l : List Char) :
    skipWs (renderJson j ++ l) = renderJson j ++ l := by
  obtain ⟨cs, hx | hx | hx⟩ := renderJson_head j ht <;>
    rw [hx, List.cons_append] <;> exact skipWs_cons _ _ (by decide)

/-- One-step unfolding of `parseV` on a quoted string. -/
theorem parseV_quote (f : Nat) (m : List Char) :
    parseV (f + 1) ('\"' :: m) =
      (parseStringBody m).map (fun p => (Json.str ⟨p.1⟩, p.2)) := by
  rw [parseV.eq_def]
  simp

/-- One-step unfolding of `parseV` on a bracket not opening an empty array. -/
theorem parseV_bracket (f : Nat) (m : List Char)
    (h : (skipWs m).head? ≠ some ']') :
    parseV (f + 1) ('[' :: m) =
      (parseElems f m).map (fun p => (Json.arr p.1, p.2)) := by
  rw [parseV.eq_def]
  simp [h]

/-- One-step unfolding of `parseV` on a brace not opening an empty object. -/
theorem parseV_brace (f : Nat) (m : List Char)
    (h : (skipWs m).head? ≠ some '\x7d') :
    parseV (f + 1) ('\x7b' :: m) =
      (parseMembers f m).map (fun p => (Json.obj p.1, p.2)) := by
  rw [parseV.eq_def]
  simp [h]

/-- One-step unfolding of `parseElems`. -/
theorem parseElems_succ (f : Nat) (input : List Char) :
    parseElems (f + 1) input =
      (parseV f (skipWs input)).bind fun p =>
        if (skipWs p.2).head? = some ',' then
          (parseElems f (skipWs p.2).tail).map
            (fun q => (JsonArr.cons p.1 q.1, q.2))
        else if (skipWs p.2).head? = some ']' then
          some (JsonArr.cons p.1 .nil, (skipWs p.2).tail)
        else none := by
  rw [parseElems.eq_def]

/-- One-step unfolding of `parseMembers` on input whose whitespace-skipped
form starts with a quoted key. -/
theorem parseMembers_quote (f : Nat) (input rest : List Char)
    (h : skipWs input = '\"' :: rest) :
    parseMembers (f + 1) input =
      (parseStringBody rest).bind fun kp =>
        if (skipWs kp.2).head? = some ':' then
          (parseV f (skipWs (skipWs kp.2).tail)).bind (fun vp =>
            if (skipWs vp.2).head? = some ',' then
              (parseMembers f (skipWs vp.2).tail).map
                (fun q => (JsonObj.cons ⟨kp.1⟩ vp.1 q.1, q.2))
            else if (skipWs vp.2).head? = some '\x7d' then
              some (JsonObj.cons ⟨kp.1⟩ vp.1 .nil, (skipWs vp.2).tail)
            else none)
        else none := by
  simp only [parseMembers]
  rw [h]
  simp

theorem costV_pos (j : Json) (ht : textualV j = true) : 1 ≤ costV j := by
  cases j
  case lit raw => exact absurd ht (by simp [textualV])
  all_goals simp [costV]

/-- The parser reverses the printer, given enough fuel: joint statement for
textual values, non-empty array tails and non-empty object tails, by
induction on the fuel. -/
theorem parseAll_render (fuel : Nat) :
    (∀ (j : Json) (rest : List Char), textualV j = true → costV j ≤ fuel →
      parseV fuel (renderJson j ++ rest) = some (j, rest)) ∧
    (∀ (x : Json) (tl : JsonArr) (rest : List Char),
      textualElems (JsonArr.cons x tl) = true →
      costElems (JsonArr.cons x tl) ≤ fuel →
      parseElems fuel (renderArr (JsonArr.cons x tl) ++ ']' :: rest) =
        some (JsonArr.cons x tl, rest)) ∧
    (∀ (k : String) (v : Json) (tl : JsonObj) (rest : List Char),
      textualMembers (JsonObj.cons k v tl) = true →
      costMembers (JsonObj.cons k v tl) ≤ fuel →
      parseMembers fuel (renderObj (JsonObj.cons k v tl) ++ '\x7d' :: rest) =
        some (JsonObj.cons k v tl, rest)) := by
  induction fuel with
  | zero =>
    refine ⟨fun j rest ht hc => ?_, fun x tl rest ht hc => ?_,
            fun k v tl rest ht hc => ?_⟩
    · exact absurd (Nat.le_trans (costV_pos j ht) hc) (by omega)
    · exfalso; simp only [costElems] at hc; omega
    · exfalso; simp only [costMembers] at hc; omega
  | succ f ih =>
    obtain ⟨ihV, ihE, ihM⟩ := ih
    refine ⟨fun j rest ht hc => ?_, fun x tl rest ht hc => ?_,
            fun k v tl rest ht hc => ?_⟩
    · match j with
      | .str s =>
        show parseV (f + 1) (('\"' :: (escapeList s.data ++ ['\"'])) ++ rest) = _
        have harg : ('\"' :: (escapeList s.data ++ ['\"'])) ++ rest
            = '\"' :: (escapeList s.data ++ '\"' :: rest) := by simp
        rw [harg, parseV_quote, parseStringBody_escape s.data rest]
        rfl
      | .arr .nil =>
        show parseV (f + 1) (('[' :: ([] ++ [']'])) ++ rest) = _
        rw [parseV.eq_def]
        simp [skipWs]
      | .arr (.cons x tl) =>
        have hte : textualElems (JsonArr.cons x tl) = true := by
          simpa [textualV] using ht
        have htx : textualV x = true ∧ textualElems tl = true := by
          simpa [textualElems, Bool.and_eq_true] using hte
        show parseV (f + 1) (('[' :: (renderArr (.cons x tl) ++ [']'])) ++ rest) = _
        have harg : ('[' :: (renderArr (.cons x tl) ++ [']'])) ++ rest
            = '[' :: (renderArr (.cons x tl) ++ ']' :: rest) := by simp
        have hh : (skipWs (renderArr (JsonArr.cons x tl) ++ ']' :: rest)).head?
            ≠ some ']' := by
          rw [show renderArr (JsonArr.cons x tl)
                = renderJson x ++ (arrSep tl ++ renderArr tl) from rfl,
              List.append_assoc, skipWs_renderJson_append x htx.1]
          obtain ⟨cs, hx | hx | hx⟩ := renderJson_head x htx.1 <;> rw [hx] <;> simp
        rw [harg, parseV_bracket f _ hh,
            ihE x tl rest hte (by simp only [costV] at hc; omega)]
        rfl
      | .obj .nil =>
        show parseV (f + 1) (('\x7b' :: ([] ++ ['\x7d'])) ++ rest) = _
        rw [parseV.eq_def]
        simp [skipWs]
      | .obj (.cons k v tl) =>
        have htm : textualMembers (JsonObj.cons k v tl) = true := by
          simpa [textualV] using ht
        show parseV (f + 1) (('\x7b' :: (renderObj (.cons k v tl) ++ ['\x7d'])) ++ rest) = _
        have harg : ('\x7b' :: (renderObj (.cons k v tl) ++ ['\x7d'])) ++ rest
            = '\x7b' :: (renderObj (.cons k v tl) ++ '\x7d' :: rest) := by simp
        have hh : (skipWs (renderObj (JsonObj.cons k v tl) ++ '\x7d' :: rest)).head?
            ≠ some '\x7d' := by
          rw [show renderObj (JsonObj.cons k v tl)
                = renderString k ++ (':' :: renderJson v ++ (objSep tl ++ renderObj tl))
              from rfl,
              show renderString k = '\"' :: (escapeList k.data ++ ['\"']) from rfl]
          simp [skipWs]
        rw [harg, parseV_brace f _ hh,
            ihM k v tl rest htm (by simp only [costV] at hc; omega)]
        rfl
      | .lit raw => exact absurd ht (by simp [textualV])
    · have htx : textualV x = true ∧ textualElems tl = true := by
        simpa [textualElems, Bool.and_eq_true] using ht
      have harg : renderArr (JsonArr.cons x tl) ++ ']' :: rest
          = renderJson x ++ (arrSep tl ++ renderArr tl ++ ']' :: rest) := by
        rw [show renderArr (JsonArr.cons x tl)
              = renderJson x ++ (arrSep tl ++ renderArr tl) from rfl]
        simp
      rw [harg, parseElems_succ, skipWs_renderJson_append x htx.1,
          ihV x _ htx.1 (by simp only [costElems] at hc; omega)]
      simp only [Option.some_bind]
      cases tl with
      | nil => simp [arrSep, renderArr, skipWs]
      | cons y tl2 =>
        have h2 : arrSep (JsonArr.cons y tl2) ++ renderArr (JsonArr.cons y tl2) ++ ']' :: rest
            = ',' :: (renderArr (JsonArr.cons y tl2) ++ ']' :: rest) := by
          rw [show arrSep (JsonArr.cons y tl2) = [','] from rfl]
          simp
        rw [h2, skipWs_cons ',' _ (by decide)]
        simp only [List.head?_cons, List.tail_cons, if_pos]
        rw [ihE y tl2 rest htx.2 (by simp only [costElems] at hc ⊢; omega)]
        rfl
    · have htx : textualV v = true ∧ textualMembers tl = true := by
        simpa [textualMembers, Bool.and_eq_true] using ht
      have harg : renderObj (JsonObj.cons k v tl) ++ '\x7d' :: rest
          = '\"' :: (escapeList k.data ++
              '\"' :: (':' :: (renderJson v ++ (objSep tl ++ renderObj tl ++ '\x7d' :: rest)))) := by
        rw [show renderObj (JsonObj.cons k v tl)
              = renderString k ++ (':' :: renderJson v ++ (objSep tl ++ renderObj tl))
            from rfl,
            show renderString k = '\"' :: (escapeList k.data ++ ['\"']) from rfl]
        simp
      rw [harg, parseMembers_quote f _ _ (skipWs_cons '\"' _ (by decide)),
          parseStringBody_escape k.data]
      simp only [Option.some_bind]
      rw [skipWs_cons ':' _ (by decide)]
      simp only [List.head?_cons, List.tail_cons, if_pos]
      rw [skipWs_renderJson_append v htx.1,
          ihV v _ htx.1 (by simp only [costMembers] at hc; omega)]
      simp only [Option.some_bind]
      cases tl with
      | nil => simp [objSep, renderObj, skipWs]
      | cons k2 v2 tl2 =>
        have h2 : objSep (JsonObj.cons k2 v2 tl2) ++ renderObj (JsonObj.cons k2 v2 tl2) ++ '\x7d' :: rest
            = ',' :: (renderObj (JsonObj.cons k2 v2 tl2) ++ '\x7d' :: rest) := by
          rw [show objSep (JsonObj.cons k2 v2 tl2) = [','] from rfl]
          simp
        rw [h2, skipWs_cons ',' _ (by decide)]
        simp only [List.head?_cons, List.tail_cons, if_pos]
        rw [ihM k2 v2 tl2 rest htx.2 (by simp only [costMembers] at hc ⊢; omega)]
        rfl

/-- The parser reverses the printer on textual values, given enough fuel. -/
theorem parseV_render (j : Json) (rest : List Char) (fuel : Nat)
    (ht : textualV j = true) (hc : costV j ≤ fuel) :
    parseV fuel (renderJson j ++ rest) = some (j, rest) :=
  (parseAll_render fuel).1 j rest ht hc

/-- The fuel needed never exceeds the rendered length (joint statement,
by induction on a size bound). -/
theorem costAll_le_aux (n : Nat) :
    (∀ j : Json, sizeOf j ≤ n → costV j ≤ (renderJson j).length) ∧
    (∀ el : JsonArr, sizeOf el ≤ n → costElems el ≤ 1 + (renderArr el).length) ∧
    (∀ mb : JsonObj, sizeOf mb ≤ n → costMembers mb ≤ 1 + (renderObj mb).length) := by
  induction n with
  | zero =>
    refine ⟨fun j h => ?_, fun el h => ?_, fun mb h => ?_⟩ <;>
      [cases j; cases el; cases mb] <;> simp at h
  | succ n ih =>
    obtain ⟨ihV, ihE, ihM⟩ := ih
    refine ⟨fun j h => ?_, fun el h => ?_, fun mb h => ?_⟩
    · cases j with
      | str s =>
        show costV (.str s) ≤ ('\"' :: (escapeList s.data ++ ['\"'])).length
        simp [costV]
      | arr el =>
        have h2 : sizeOf el ≤ n := by simp at h; omega
        have := ihE el h2
        show costV (.arr el) ≤ ('[' :: (renderArr el ++ [']'])).length
        simp only [costV, List.length_cons, List.length_append, List.length_singleton]
        omega
      | obj mb =>
        have h2 : sizeOf mb ≤ n := by simp at h; omega
        have := ihM mb h2
        show costV (.obj mb) ≤ ('\x7b' :: (renderObj mb ++ ['\x7d'])).length
        simp only [costV, List.length_cons, List.length_append, List.length_singleton]
        omega
      | lit raw => simp [costV]
    · cases el with
      | nil => simp [costElems]
      | cons x tl =>
        have hx := ihV x (by simp at h; omega)
        have htl : costElems tl ≤ (arrSep tl).length + (renderArr tl).length := by
          cases tl with
          | nil => simp [costElems]
          | cons y tl2 =>
            have := ihE (JsonArr.cons y tl2) (by simp at h ⊢; omega)
            simp only [arrSep, List.length_singleton]
            omega
        show costElems (.cons x tl)
            ≤ 1 + (renderJson x ++ (arrSep tl ++ renderArr tl)).length
        simp only [costElems, List.length_append]
        omega
    · cases mb with
      | nil => simp [costMembers]
      | cons k v tl =>
        have hv := ihV v (by simp at h; omega)
        have htl : costMembers tl ≤ (objSep tl).length + (renderObj tl).length := by
          cases tl with
          | nil => simp [costMembers]
          | cons k2 v2 tl2 =>
            have := ihM (JsonObj.cons k2 v2 tl2) (by simp at h ⊢; omega)
            simp only [objSep, List.length_singleton]
            omega
        show costMembers (.cons k v tl)
            ≤ 1 + (renderString k ++ (':' :: renderJson v ++ (objSep tl ++ renderObj tl))).length
        simp only [costMembers, List.length_append, List.length_cons]
        omega

/-- The fuel needed never exceeds the rendered length. -/
theorem costV_le_length (j : Json) : costV j ≤ (renderJson j).length :=
  (costAll_le_aux (sizeOf j)).1 j (Nat.le_refl _)

/-- `JSON.parse` inverts `JSON.stringify` on every textual JSON value. -/
theorem jsonParse_render (j : Json) (ht : textualV j = true) :
    jsonParse ⟨renderJson j⟩ = some j := by
  unfold jsonParse
  show (match parseV ((renderJson j).length + 1) (skipWs (renderJson j)) with
    | some (j, r) => if skipWs r = [] then some j else none
    | none => none) = some j
  have hskip : skipWs (renderJson j) = renderJson j := by
    have h := skipWs_renderJson_append j ht []
    simpa using h
  rw [hskip]
  have h1 : renderJson j = renderJson j ++ [] := by simp
  nth_rewrite 2 [h1]
  rw [parseV_render j [] ((renderJson j).length + 1) ht
    (by have := costV_le_length j; omega)]
  rfl

theorem decodeTags_encodeTags (ts : List String) :
    decodeTags (encodeTags ts) = some ts := by
  induction ts with
  | nil => rfl
  | cons t ts ih => simp [encodeTags, decodeTags, ih]

theorem decodeNote_encodeNote (n : Note) :
    decodeNote (encodeNote n) = some n := by
  simp [encodeNote, decodeNote, decodeTags_encodeTags]

theorem decodeNoteList_encodeNotes (ns : List Note) :
    decodeNoteList (encodeNotes ns) = some ns := by
  induction ns with
  | nil => rfl
  | cons n ns ih => simp [encodeNotes, decodeNoteList, decodeNote_encodeNote, ih]

theorem textualElems_encodeTags (ts : List String) :
    textualElems (encodeTags ts) = true := by
  induction ts with
  | nil => rfl
  | cons t ts ih => simp [encodeTags, textualElems, textualV, ih]

theorem textualV_encodeNote (n : Note) : textualV (encodeNote n) = true := by
  simp [encodeNote, textualV, textualMembers, textualElems_encodeTags]

theorem textualV_encodeNotes (ns : List Note) :
    textualV (Json.arr (encodeNotes ns)) = true := by
  induction ns with
  | nil => rfl
  | cons n ns ih =>
    simp only [textualV] at ih ⊢
    simp [encodeNotes, textualElems, textualV_encodeNote, ih]

/-- A rendered collection blob is never the empty string (it starts with
`[`), so the load path's truthiness test does not skip it. -/
theorem stringifyNotes_ne_empty (notes : List Note) :
    (⟨renderJson (Json.arr (encodeNotes notes))⟩ : String) ≠ "" := by
  intro h
  have h2 := congrArg String.data h
  rw [show (⟨renderJson (Json.arr (encodeNotes notes))⟩ : String).data
        = '[' :: (renderArr (encodeNotes notes) ++ [']']) from rfl] at h2
  rw [show "".data = ([] : List Char) from rfl] at h2
  exact List.noConfusion h2

/-- C7: persisting a collection (`JSON.stringify` into the storage key) and
then loading it back yields exactly the original collection: the same
notes in the same order with identical `id`, `title`, `content`, `tags`,
`createdAt` and `updatedAt` values. -/
theorem load_roundtrip (notes : List Note) :
    loadNotes (some (stringifyNotes notes)) = LoadOutcome.ok notes := by
  simp only [loadNotes, stringifyNotes]
  rw [if_neg (stringifyNotes_ne_empty notes)]
  rw [jsonParse_render (Json.arr (encodeNotes notes)) (textualV_encodeNotes notes)]
  simp [decodeNotes, decodeNoteList_encodeNotes]

/-- C2 (counterexample): the stored blob `"{"` does not parse
(`JSON.parse("{")` throws); `load` crashes — the `JSON.parse` call has no
`try`/`catch` around it, so the exception propagates — instead of
yielding the empty collection that the claim's fail-soft policy
requires. -/
theorem load_malformed_crashes :
    loadNotes (some "\x7b") = LoadOutcome.crash ∧
    ¬ loadNotes (some "\x7b") = LoadOutcome.ok [] := by
  constructor
  · rfl
  · rw [show loadNotes (some "\x7b") = LoadOutcome.crash from rfl]
    exact fun h => LoadOutcome.noConfusion h

/-- C2 (amended): `load()` of an absent blob yields the empty collection,
and so does a stored empty-string blob (the source's `if (saved)`
truthiness test skips `JSON.parse` on it); well-formed persisted data is
loaded back unchanged (never silently corrupted); but a present non-empty
blob that the JSON grammar rejects makes `load()` throw (the `SyntaxError`
of `JSON.parse` is uncaught) rather than failing soft to the empty
collection. -/
theorem load_spec (s : String) (notes : List Note)
    (hs : jsonParse s = none) (hne : s ≠ "") :
    loadNotes none = LoadOutcome.ok [] ∧
    loadNotes (some "") = LoadOutcome.ok [] ∧
    loadNotes (some s) = LoadOutcome.crash ∧
    loadNotes (some (stringifyNotes notes)) = LoadOutcome.ok notes := by
  refine ⟨rfl, rfl, ?_, ?_⟩
  · simp only [loadNotes]
    rw [if_neg hne, hs]
  · simp only [loadNotes, stringifyNotes]
    rw [if_neg (stringifyNotes_ne_empty notes)]
    rw [jsonParse_render (Json.arr (encodeNotes notes)) (textualV_encodeNotes notes)]
    simp [decodeNotes, decodeNoteList_encodeNotes]

/-- C2 witness: the amended load behaviour at the malformed non-empty
blob `"{"` and a concrete one-note collection. -/
theorem load_spec_witness :
    jsonParse "\x7b" = none ∧ "\x7b" ≠ "" ∧
    (loadNotes none = LoadOutcome.ok [] ∧
     loadNotes (some "") = LoadOutcome.ok [] ∧
     loadNotes (some "\x7b") = LoadOutcome.crash ∧
     loadNotes (some (stringifyNotes
       [{ id := "1", title := "a", content := "b", tags := ["t"],
          createdAt := "c", updatedAt := "u" }])) =
       LoadOutcome.ok
         [{ id := "1", title := "a", content := "b", tags := ["t"],
            createdAt := "c", updatedAt := "u" }]) :=
  ⟨rfl, by decide, load_spec "\x7b"
    [{ id := "1", title := "a", content := "b", tags := ["t"],
       createdAt := "c", updatedAt := "u" }] rfl (by decide)⟩

end NotesApp
